import Mathlib

/-!
Verification of the interview backend (`src/backend/server.js`), the
`AIInterviewer` React client, and the audio capture utilities of this
repository.  JavaScript strings are modelled as `List Char`, JavaScript
numbers as exact rationals (`ℚ`) with a separate `nan` constructor where the
code can actually produce `NaN`, and each provider round trip is abstracted
by the raw text the provider call produced (`none` models a thrown
exception).  All definitions are translated directly from the source.
-/

namespace ThinkAloud

/-- Named backtick character, `Char.ofNat 96`. -/
def bt : Char := Char.ofNat 96

/-- Named left-brace character, `Char.ofNat 123`. -/
def lbr : Char := Char.ofNat 123

/-- Named right-brace character, `Char.ofNat 125`. -/
def rbr : Char := Char.ofNat 125

/-- The ASCII part of JavaScript's `\s` class (space, tab, LF, CR, VT, FF),
used by both the regex replaces and `String.prototype.trim`. -/
def isJsWs (c : Char) : Bool :=
  c = ' ' || c = '\t' || c = '\n' || c = '\x0d' || c = '\x0b' || c = '\x0c'

/-- JavaScript `String.prototype.trim`: drop whitespace at both ends. -/
def trimWs (s : List Char) : List Char :=
  ((s.dropWhile isJsWs).reverse.dropWhile isJsWs).reverse

/-- Embedding of `raw.replace(/^```json?\s*/i, '')` from `server.js`.
Note the regex: the `?` quantifies only the letter `n`, so the pattern
matches a leading "```json" or "```jso" (case-insensitively) followed by
whitespace; it does NOT match a bare "```" fence. -/
def stripLeadingJsonFence (s : List Char) : List Char :=
  match s with
  | c1 :: c2 :: c3 :: rest =>
    if c1 = bt ∧ c2 = bt ∧ c3 = bt then
      match rest with
      | j :: s2 :: o :: rest2 =>
        if j.toLower = 'j' ∧ s2.toLower = 's' ∧ o.toLower = 'o' then
          match rest2 with
          | n :: rest3 =>
            if n.toLower = 'n' then rest3.dropWhile isJsWs
            else rest2.dropWhile isJsWs
          | [] => []
        else s
      | _ => s
    else s
  | _ => s

/-- Embedding of `.replace(/\s*```$/, '')` from `server.js`: if the string
ends in "```", remove it together with the run of whitespace just before. -/
def stripTrailingFence (s : List Char) : List Char :=
  match s.reverse with
  | c1 :: c2 :: c3 :: rest =>
    if c1 = bt ∧ c2 = bt ∧ c3 = bt then (rest.dropWhile isJsWs).reverse
    else s
  | _ => s

/-- The two replaces applied in sequence, as in both `analyzeWithGemini`
(`server.js:336`) and `getNextQuestion` (`server.js:373`). -/
def stripFences (s : List Char) : List Char :=
  stripTrailingFence (stripLeadingJsonFence s)

/-- The fence-stripping step of `analyzeWithGemini` including its final
`.trim()` (`server.js:336`). -/
def jsonFenceStrip (s : List Char) : List Char :=
  trimWs (stripFences s)

/-- Whether the string contains a triple-backtick anywhere (the presence of
a Markdown code fence). -/
def hasTriple : List Char → Bool
  | a :: b :: c :: rest =>
    (a = bt && b = bt && c = bt) || hasTriple (b :: c :: rest)
  | _ => false

theorem hasTriple_cons_of (a : Char) (s : List Char) :
    hasTriple s = true → hasTriple (a :: s) = true := by
  intro h
  match s with
  | [] => simp [hasTriple] at h
  | [x] => simp [hasTriple] at h
  | x :: y :: t => simp [hasTriple, h]

theorem hasTriple_append_left (u s : List Char) :
    hasTriple s = true → hasTriple (u ++ s) = true := by
  induction u with
  | nil => intro h; simpa using h
  | cons a u ih =>
      intro h
      simpa using hasTriple_cons_of a (u ++ s) (ih h)

theorem hasTriple_of_leading_triple (rest : List Char) :
    hasTriple (bt :: bt :: bt :: rest) = true := by
  simp [hasTriple]

/-- Any suffix produced by `dropWhile` is literally a suffix. -/
theorem dropWhile_eq_append (p : Char → Bool) (s : List Char) :
    ∃ u, s = u ++ s.dropWhile p := by
  induction s with
  | nil => exact ⟨[], rfl⟩
  | cons a s ih =>
      by_cases h : p a
      · obtain ⟨u, hu⟩ := ih
        exact ⟨a :: u, by simp [List.dropWhile, h, ← hu]⟩
      · exact ⟨[], by simp [List.dropWhile, h]⟩

theorem hasTriple_dropWhile (p : Char → Bool) (s : List Char)
    (h : hasTriple (s.dropWhile p) = true) : hasTriple s = true := by
  obtain ⟨u, hu⟩ := dropWhile_eq_append p s
  rw [hu]; exact hasTriple_append_left u _ h

/-- If a fence-free string is given, the leading-fence replace does not
change it. -/
theorem stripLeadingJsonFence_of_noFence (s : List Char)
    (h : hasTriple s = false) : stripLeadingJsonFence s = s := by
  match s with
  | [] => rfl
  | [c] => rfl
  | [c1, c2] => rfl
  | c1 :: c2 :: c3 :: rest =>
      show stripLeadingJsonFence (c1 :: c2 :: c3 :: rest) = _
      unfold stripLeadingJsonFence
      have hne : ¬(c1 = bt ∧ c2 = bt ∧ c3 = bt) := by
        rintro ⟨h1, h2, h3⟩
        subst h1; subst h2; subst h3
        rw [hasTriple_of_leading_triple rest] at h
        exact absurd h (by simp)
      simp [hne]

/-- A string with a triple backtick decomposes around one occurrence. -/
theorem hasTriple_decomp : ∀ t : List Char, hasTriple t = true →
    ∃ u v, t = u ++ bt :: bt :: bt :: v := by
  intro t ht
  induction t with
  | nil => simp [hasTriple] at ht
  | cons a t ih =>
      match t, ht with
      | b :: c :: rest, ht =>
        rw [hasTriple] at ht
        rcases Bool.or_eq_true_iff.mp ht with h1 | h2
        · have h1' : a = bt ∧ b = bt ∧ c = bt := by
            simpa [Bool.and_eq_true, decide_eq_true_eq, and_assoc] using h1
          exact ⟨[], rest, by simp [h1'.1, h1'.2.1, h1'.2.2]⟩
        · obtain ⟨u, v, huv⟩ := ih h2
          exact ⟨a :: u, v, by simp [huv]⟩

theorem hasTriple_reverse (s : List Char)
    (h : hasTriple s = false) : hasTriple s.reverse = false := by
  by_contra hc
  have hrev : hasTriple s.reverse = true := by
    cases hx : hasTriple s.reverse with
    | false => exact absurd hx hc
    | true => rfl
  obtain ⟨u, v, huv⟩ := hasTriple_decomp s.reverse hrev
  have hs : s = v.reverse ++ bt :: bt :: bt :: u.reverse := by
    have h2 := congrArg List.reverse huv
    simpa [List.reverse_append] using h2
  rw [hs, hasTriple_append_left v.reverse _ (hasTriple_of_leading_triple _)] at h
  exact absurd h (by simp)

/-- If a fence-free string is given, the trailing-fence replace does not
change it. -/
theorem stripTrailingFence_of_noFence (s : List Char)
    (h : hasTriple s = false) : stripTrailingFence s = s := by
  have hrev := hasTriple_reverse s h
  unfold stripTrailingFence
  match hs : s.reverse with
  | [] => rfl
  | [c] => rfl
  | [c1, c2] => rfl
  | c1 :: c2 :: c3 :: rest =>
      have hne : ¬(c1 = bt ∧ c2 = bt ∧ c3 = bt) := by
        rintro ⟨h1, h2, h3⟩
        subst h1; subst h2; subst h3
        rw [hs, hasTriple_of_leading_triple rest] at hrev
        exact absurd hrev (by simp)
      simp [hne]

/-- JavaScript values as they occur in the handler: JSON data plus the
`undefined` produced by reading an absent property and the `NaN` the scoring
arithmetic can produce.  Numbers are modelled as exact rationals. -/
inductive JSVal where
  | undefined
  | null
  | nan
  | bool (b : Bool)
  | num (q : ℚ)
  | str (s : List Char)
  | arr (xs : List JSVal)
  | obj (fs : List (List Char × JSVal))

def JSVal.isUndefined : JSVal → Bool
  | .undefined => true
  | _ => false

/-- JavaScript `typeof v === 'number'` (true for `NaN` as well). -/
def JSVal.isNumber : JSVal → Bool
  | .num _ => true
  | .nan => true
  | _ => false

/-- JavaScript truthiness. -/
def JSVal.truthy : JSVal → Bool
  | .undefined => false
  | .null => false
  | .nan => false
  | .bool b => b
  | .num q => decide (q ≠ 0)
  | .str s => decide (s ≠ [])
  | .arr _ => true
  | .obj _ => true

/-- Look a key up in an object's field list (`undefined` when absent). -/
def getField : List (List Char × JSVal) → List Char → JSVal
  | [], _ => .undefined
  | (k', v) :: fs, k => if k' = k then v else getField fs k

/-- Property read `v.k`: `undefined` on every non-object. -/
def JSVal.get : JSVal → List Char → JSVal
  | .obj fs, k => getField fs k
  | _, _ => .undefined

/-- Assign a key in a field list: overwrite in place, else append. -/
def setField : List (List Char × JSVal) → List Char → JSVal → List (List Char × JSVal)
  | [], k, v => [(k, v)]
  | (k', v') :: fs, k, v =>
    if k' = k then (k, v) :: fs else (k', v') :: setField fs k v

/-- Property write `v.k = x`; a no-op on non-objects (the handler only
assigns to values it has already checked to be truthy objects). -/
def JSVal.set : JSVal → List Char → JSVal → JSVal
  | .obj fs, k, x => .obj (setField fs k x)
  | v, _, _ => v

/-- JavaScript `a || b`. -/
def jsOr (a b : JSVal) : JSVal := if a.truthy then a else b

/-- Decimal digit test. -/
def isDigit (c : Char) : Bool := decide ('0' ≤ c ∧ c ≤ '9')

def digitsVal (ds : List Char) : ℕ :=
  ds.foldl (fun a c => a * 10 + (c.toNat - 48)) 0

/-- Exact value of a JSON number from its parts: sign, integer digits,
fraction digits, exponent sign and exponent digits.  The value is
`±(ip.fr) * 10^(±e)` as an exact rational. -/
def numOfParts (neg : Bool) (ip : ℕ) (fr : ℕ) (frLen : ℕ)
    (esgn : Bool) (e : ℕ) : ℚ :=
  let mag : ℚ := (ip : ℚ) + (fr : ℚ) / (10 : ℚ) ^ frLen
  let scaled : ℚ := if esgn then mag / (10 : ℚ) ^ e else mag * (10 : ℚ) ^ e
  if neg then -scaled else scaled

/-- Optional exponent part of a JSON number; returns sign and digits. -/
def parseExpPart (s : List Char) : Option (Bool × ℕ × List Char) :=
  match s with
  | [] => some (false, 0, [])
  | c :: r =>
    if c = 'e' ∨ c = 'E' then
      let (esgn, r1) : Bool × List Char :=
        match r with
        | c2 :: r2 =>
          if c2 = '+' then (false, r2)
          else if c2 = '-' then (true, r2)
          else (false, r)
        | [] => (false, [])
      let es := r1.takeWhile isDigit
      let r2 := r1.dropWhile isDigit
      if es = [] then none
      else some (esgn, digitsVal es, r2)
    else some (false, 0, s)

/-- JSON number grammar: `-?(0|[1-9][0-9]*)(\.[0-9]+)?([eE][+-]?[0-9]+)?`.
Plain integers take the cast-only path so that parsing a concrete string
reduces definitionally (rationals built with `*`, `/` appear only for
fraction or exponent forms). -/
def parseNumber (s0 : List Char) : Option (ℚ × List Char) :=
  let (neg, s1) : Bool × List Char :=
    match s0 with
    | c :: r => if c = '-' then (true, r) else (false, s0)
    | [] => (false, [])
  let ds := s1.takeWhile isDigit
  let r1 := s1.dropWhile isDigit
  if ds = [] then none
  else if 1 < ds.length ∧ ds.headI = '0' then none
  else
    let ip := digitsVal ds
    match r1 with
    | '.' :: r2 =>
      let fs := r2.takeWhile isDigit
      let r3 := r2.dropWhile isDigit
      if fs = [] then none
      else
        match parseExpPart r3 with
        | some (esgn, e, r4) =>
          some (numOfParts neg ip (digitsVal fs) fs.length esgn e, r4)
        | none => none
    | _ =>
      match parseExpPart r1 with
      | some (false, 0, r4) =>
        -- no fraction, no exponent: exact integer value by casting alone
        some ((((if neg then -(ip : ℤ) else (ip : ℤ)) : ℤ) : ℚ), r4)
      | some (esgn, e, r4) => some (numOfParts neg ip 0 0 esgn e, r4)
      | none => none

def hexDigit (c : Char) : Option ℕ :=
  if isDigit c then some (c.toNat - 48)
  else if 'a' ≤ c ∧ c ≤ 'f' then some (c.toNat - 87)
  else if 'A' ≤ c ∧ c ≤ 'F' then some (c.toNat - 55)
  else none

/-- Body of a JSON string after the opening quote: returns the decoded
characters and the remainder after the closing quote. -/
def parseStringBody : ℕ → List Char → Option (List Char × List Char)
  | 0, _ => none
  | _, [] => none
  | fuel+1, c :: r =>
    if c = '"' then some ([], r)
    else if c = '\\' then
      match r with
      | [] => none
      | e :: r2 =>
        let esc : Option (Char × List Char) :=
          if e = '"' then some ('"', r2)
          else if e = '\\' then some ('\\', r2)
          else if e = '/' then some ('/', r2)
          else if e = 'b' then some ('\x08', r2)
          else if e = 'f' then some ('\x0c', r2)
          else if e = 'n' then some ('\n', r2)
          else if e = 'r' then some ('\x0d', r2)
          else if e = 't' then some ('\t', r2)
          else if e = 'u' then
            match r2 with
            | h1 :: h2 :: h3 :: h4 :: r3 =>
              match hexDigit h1, hexDigit h2, hexDigit h3, hexDigit h4 with
              | some a, some b, some c2, some d =>
                some (Char.ofNat (((a * 16 + b) * 16 + c2) * 16 + d), r3)
              | _, _, _, _ => none
            | _ => none
          else none
        match esc with
        | some (ch, rest) =>
          match parseStringBody fuel rest with
          | some (cs, r4) => some (ch :: cs, r4)
          | none => none
        | none => none
    else if c.toNat < 32 then none
    else
      match parseStringBody fuel r with
      | some (cs, r4) => some (c :: cs, r4)
      | none => none

/-- The pending task of the recursive-descent parser: a value, the members
of an object, or the elements of an array. -/
inductive ParseTask where
  | value (s : List Char)
  | members (s : List Char) (first : Bool) (acc : List (List Char × JSVal))
  | elems (s : List Char) (first : Bool) (acc : List JSVal)

/-- Fuel-indexed recursive-descent model of `JSON.parse`.  Structural
recursion on the fuel so that applications reduce definitionally.  Object
members with a duplicate key overwrite the earlier one, as `JSON.parse`
assignment does. -/
def parseF : ℕ → ParseTask → Option (JSVal × List Char)
  | 0, _ => none
  | fuel+1, .value s0 =>
    let s := s0.dropWhile isJsWs
    match s with
    | [] => none
    | c :: r =>
      if c = lbr then parseF fuel (.members r true [])
      else if c = '[' then parseF fuel (.elems r true [])
      else if c = '"' then
        match parseStringBody (r.length + 1) r with
        | some (cs, r2) => some (.str cs, r2)
        | none => none
      else if c = 't' then
        match r with
        | 'r' :: 'u' :: 'e' :: r2 => some (.bool true, r2)
        | _ => none
      else if c = 'f' then
        match r with
        | 'a' :: 'l' :: 's' :: 'e' :: r2 => some (.bool false, r2)
        | _ => none
      else if c = 'n' then
        match r with
        | 'u' :: 'l' :: 'l' :: r2 => some (.null, r2)
        | _ => none
      else if c = '-' ∨ isDigit c then
        match parseNumber s with
        | some (q, r2) => some (.num q, r2)
        | none => none
      else none
  | fuel+1, .members s0 first acc =>
    let s := s0.dropWhile isJsWs
    match s with
    | [] => none
    | c :: r =>
      if c = rbr ∧ first then some (.obj acc, r)
      else if c = '"' then
        match parseStringBody (r.length + 1) r with
        | some (k, r2) =>
          match r2.dropWhile isJsWs with
          | ':' :: r3 =>
            match parseF fuel (.value r3) with
            | some (v, r4) =>
              match r4.dropWhile isJsWs with
              | ',' :: r5 => parseF fuel (.members r5 false (setField acc k v))
              | cc :: r5 =>
                if cc = rbr then some (.obj (setField acc k v), r5) else none
              | [] => none
            | none => none
          | _ => none
        | none => none
      else none
  | fuel+1, .elems s0 first acc =>
    let s := s0.dropWhile isJsWs
    match s with
    | [] => none
    | c :: _ =>
      if c = ']' ∧ first then some (.arr acc.reverse, s.tail)
      else
        match parseF fuel (.value s) with
        | some (v, r2) =>
          match r2.dropWhile isJsWs with
          | ',' :: r3 => parseF fuel (.elems r3 false (v :: acc))
          | ']' :: r3 => some (.arr (v :: acc).reverse, r3)
          | _ => none
        | none => none

/-- Model of `JSON.parse`: the whole input must be one JSON value plus
surrounding whitespace; `none` models the thrown `SyntaxError`. -/
def parseJs (s : List Char) : Option JSVal :=
  match parseF (s.length + 1) (.value s) with
  | some (v, rest) => if rest.dropWhile isJsWs = [] then some v else none
  | none => none

/- Field names used by the `/api/interview/next` handler. -/

def kDone : List Char := "done".data
def kNextQuestion : List Char := "nextQuestion".data
def kClosingMessage : List Char := "closingMessage".data
def kOverallScore : List Char := "overallScore".data
def kOverallFeedback : List Char := "overallFeedback".data
def kPerQuestionScores : List Char := "perQuestionScores".data
def kAnswersAverage : List Char := "answersAverage".data
def kScore : List Char := "score".data
def kRole : List Char := "role".data

/-- Failure surfaces of the two Gemini wrappers.  `noResponse` is the
thrown `No response from Gemini`; `emptyText` the thrown
`Gemini returned empty text (possible safety block or error)`; and
`invalidJson` a `JSON.parse` failure (re-thrown as
`Gemini returned invalid JSON` in `analyzeWithGemini`, propagated raw in
`getNextQuestion`). -/
inductive GatewayError where
  | noResponse
  | emptyText
  | invalidJson
deriving DecidableEq

/-- Tail of `analyzeWithGemini` (`server.js:323-343`): the input is the
outcome of `result.response` and `response.text()` — `none` when the
response object is missing, `some none` when `text()` threw, and
`some (some t)` the returned text. -/
def analyzeGateway (resp : Option (Option (List Char))) : Except GatewayError JSVal :=
  match resp with
  | none => .error .noResponse
  | some none => .error .noResponse
  | some (some t) =>
    let raw := trimWs t
    if raw = [] then .error .emptyText
    else
      match parseJs (jsonFenceStrip raw) with
      | some v => .ok v
      | none => .error .invalidJson

/-- Tail of `getNextQuestion` (`server.js:369-374`): the check
`!response || !response.text()` merges a missing response and an
empty-string text into the same thrown error; any other text is trimmed,
fence-stripped and given to `JSON.parse`. -/
def nextGateway (resp : Option (List Char)) : Except GatewayError JSVal :=
  match resp with
  | none => .error .noResponse
  | some t =>
    if t = [] then .error .noResponse
    else
      match parseJs (stripFences (trimWs t)) with
      | some v => .ok v
      | none => .error .invalidJson

/-- Embedding of `Math.round`: round half toward positive infinity. -/
def jround (q : ℚ) : ℚ := ((⌊q + 1/2⌋ : ℤ) : ℚ)

/-- Embedding of `m.role === 'user'` on an arbitrary JSON value. -/
def isUserMsg (m : JSVal) : Bool :=
  match m.get kRole with
  | .str s => s = "user".data
  | _ => false

/-- Embedding of `messages.filter((m) => m.role === 'user').length`. -/
def userCount (msgs : List JSVal) : ℕ := (msgs.filter isUserMsg).length

/-- Embedding of `typeof p.score === 'number' ? p.score : 0` (values come from
`JSON.parse`, which never produces `NaN`). -/
def scoreVal (p : JSVal) : ℚ :=
  match p.get kScore with
  | .num q => q
  | _ => 0

/-- Step A of the termination path (`server.js:429-468`): per-question
scoring.  `so` is the outcome of the scoring `generateContent` call:
`none` models a thrown provider error (caught and ignored), `some none` a
response without a usable `text` function, and `some (some t)` the raw
text.  An `Option ℚ` with value `none` models the `NaN` produced by `0/0`
when `perQuestionScores` is empty and `answersAverage` is absent. -/
def stepA (msgs : List JSVal) (clientFitScore : JSVal)
    (so : Option (Option (List Char))) (out : JSVal) : JSVal :=
  if userCount msgs = 0 then out
  else
    match so with
    | none => out
    | some none => out
    | some (some t) =>
      match parseJs (stripFences (trimWs t)) with
      | none => out
      | some parsed =>
        match parsed.get kPerQuestionScores with
        | .arr scores =>
          let out1 := out.set kPerQuestionScores (.arr scores)
          let avg10 : Option ℚ :=
            match parsed.get kAnswersAverage with
            | .num q => some q
            | .nan => none
            | _ =>
              if scores.length = 0 then none
              else some ((scores.map scoreVal).sum / (scores.length : ℚ))
          let answersAvgPct : Option ℚ := avg10.map (fun a => jround (a / 10 * 100))
          if clientFitScore.isNumber then
            match clientFitScore, answersAvgPct with
            | .num f, some p => out1.set kOverallScore (.num (jround (2/5 * f + 3/5 * p)))
            | _, _ => out1.set kOverallScore .nan
          else if ¬(out1.get kOverallScore).isNumber then
            out1.set kOverallScore
              (match answersAvgPct with
               | some p => .num p
               | none => .nan)
          else out1
        | _ => out

/-- Step B of the termination path (`server.js:474-501`): narrative
evaluation.  On a parsed evaluation object the three merge assignments run
unconditionally, each reading the current value. -/
def stepB (eo : Option (Option (List Char))) (out : JSVal) : JSVal :=
  match eo with
  | none => out
  | some none => out
  | some (some t) =>
    match parseJs (stripFences (trimWs t)) with
    | none => out
    | some parsed =>
      let out1 := out.set kOverallScore
        (if (parsed.get kOverallScore).isNumber then parsed.get kOverallScore
         else out.get kOverallScore)
      let out2 := out1.set kOverallFeedback
        (jsOr (parsed.get kOverallFeedback) (out1.get kOverallFeedback))
      out2.set kClosingMessage (jsOr (parsed.get kClosingMessage) (out2.get kClosingMessage))

/-- Embedding of `JSON.stringify` as applied by `res.json`, mapping `NaN` to `null`. -/
def jsonFix : JSVal → JSVal
  | .nan => .null
  | v => v

/-- Serialization performed by `res.json`: `undefined`-valued properties
are dropped and `NaN` becomes `null`.  Every nested value of the handler's
result comes from `JSON.parse` (no `undefined`/`NaN` inside), so
serialization acts at the top level only. -/
def serializeTop : JSVal → JSVal
  | .obj fs => .obj ((fs.filter (fun p => ¬ p.2.isUndefined)).map (fun p => (p.1, jsonFix p.2)))
  | .nan => .null
  | v => v

/-- An HTTP response of the handler: a 200 JSON payload or an error
status with its `error` message. -/
inductive Resp where
  | ok (payload : JSVal)
  | err (status : ℕ) (msg : List Char)

/-- The payload after the two conditional enrichment steps
(`server.js:428-502`): Step A runs when the model signalled `done`;
Step B when additionally no numeric `overallScore` or no truthy
`overallFeedback` is present yet. -/
def mergedOut (msgs : List JSVal) (clientFitScore : JSVal)
    (so eo : Option (Option (List Char))) (out : JSVal) : JSVal :=
  let out1 :=
    if out.truthy && (out.get kDone).truthy then stepA msgs clientFitScore so out
    else out
  if out1.truthy && (out1.get kDone).truthy &&
      (!(out1.get kOverallScore).isNumber || !(out1.get kOverallFeedback).truthy)
    then stepB eo out1
  else out1

/-- The `/api/interview/next` handler (`server.js:409-509`).  `hasKey`
models the presence of `GEMINI_API_KEY`; `no` the raw outcome of the
`getNextQuestion` provider call; `so` and `eo` those of the scoring and
evaluation calls.  Prompt construction is omitted: it only feeds the
provider, which the oracle arguments abstract. -/
def interviewNext (hasKey : Bool) (resumeSummary messagesV clientFitScore : JSVal)
    (no : Option (List Char)) (so eo : Option (Option (List Char))) : Resp :=
  if ¬hasKey then .err 503 "Gemini API key not set.".data
  else if ¬resumeSummary.truthy then .err 400 "resumeSummary and messages array required".data
  else
    match messagesV with
    | .arr msgs =>
      if msgs.length = 0 then .err 400 "resumeSummary and messages array required".data
      else
        match nextGateway no with
        | .error _ => .err 500 "Failed to get next question".data
        | .ok out => .ok (serializeTop (mergedOut msgs clientFitScore so eo out))
    | _ => .err 400 "resumeSummary and messages array required".data

/-- Payload of a 200 response (`undefined` for error responses). -/
def Resp.payload : Resp → JSVal
  | .ok p => p
  | .err _ _ => .undefined

/-- Whether a response is a 200. -/
def Resp.isOk : Resp → Bool
  | .ok _ => true
  | .err _ _ => false

/- ------------------------------------------------------------------ -/
/- Client side: `AIInterviewer.tsx` (`handleSendAnswer`, STT handlers,
   PCM conversion).                                                    -/
/- ------------------------------------------------------------------ -/

/-- One transcript entry held by the client (`{ role, content }`).  The
content is kept as the JavaScript value the code stores. -/
structure ChatMsg where
  role : List Char
  content : JSVal

/-- The slice of React state `handleSendAnswer` reads or writes.
`hasSession` models `sessionContext !== null`. -/
structure ClientState where
  messages : List ChatMsg
  answer : List Char
  sending : Bool
  interviewDone : Bool
  analysisError : List Char
  hasSession : Bool
  overallScore : Option ℚ
  overallFeedback : List Char
  sessionSummary : List Char

/-- Outcome of the `fetch('/api/interview/next')` round trip as the
client observes it: a network or body-parse failure (caught), a non-ok
status (thrown and caught with the extracted message), or parsed JSON. -/
inductive FetchResult where
  | netError (msg : List Char)
  | httpError (msg : List Char)
  | okJson (data : JSVal)

/-- Simplified JavaScript string coercion, exact on strings and the
primitive constants; STT/interview payload text fields are strings, so
the remaining cases are never exercised by the theorems below. -/
def jsToString : JSVal → List Char
  | .str s => s
  | .bool true => "true".data
  | .bool false => "false".data
  | .null => "null".data
  | .undefined => "undefined".data
  | .nan => "NaN".data
  | .num q => if q.den = 1 then (toString q.num).data else (toString q.num).data ++ '/' :: (toString q.den).data
  | .arr _ => []
  | .obj _ => "[object Object]".data

/-- Embedding of `handleSendAnswer` from `AIInterviewer.tsx` (`part_006:192-238`,
identically `part_007:197-261`): guard, optimistic append of the user
message, then the response branches; `finally` clears `sending`.  The
extra session-save call of `part_007` does not touch this state. -/
def handleSendAnswer (st : ClientState) (resp : FetchResult) : ClientState :=
  let text := trimWs st.answer
  if text = [] ∨ ¬st.hasSession ∨ st.sending ∨ st.interviewDone then st
  else
    let userMessage : ChatMsg := ⟨"user".data, .str text⟩
    let st1 : ClientState :=
      { st with messages := st.messages ++ [userMessage],
                answer := [], sending := true, analysisError := [] }
    let st2 : ClientState :=
      match resp with
      | .netError m => { st1 with analysisError := m }
      | .httpError m => { st1 with analysisError := m }
      | .okJson data =>
        if (data.get kDone).truthy && (data.get kClosingMessage).truthy then
          let stA : ClientState :=
            match data.get kOverallScore with
            | .num q => { st1 with overallScore := some q }
            | _ => st1
          let stB : ClientState :=
            match data.get kOverallFeedback with
            | .str s =>
              if s ≠ [] then { stA with overallFeedback := s, sessionSummary := s }
              else stA
            | _ => stA
          { stB with
              messages := stB.messages ++ [⟨"assistant".data, data.get kClosingMessage⟩],
              interviewDone := true }
        else if (data.get kNextQuestion).truthy then
          { st1 with messages := st1.messages ++ [⟨"assistant".data, data.get kNextQuestion⟩] }
        else st1
    { st2 with sending := false }

/- STT websocket client -/

def kMessageType : List Char := "message_type".data
def kText : List Char := "text".data
def kDetail : List Char := "detail".data
def kErrorField : List Char := "error".data

/-- The slice of React state the STT handlers touch. -/
structure SttState where
  answer : List Char
  sttPartial : List Char
  analysisError : List Char
  isRecording : Bool

/-- JavaScript `String.prototype.includes`: contiguous substring test. -/
def listIncludes (needle : List Char) : List Char → Bool
  | [] => needle.isEmpty
  | c :: t => needle.isPrefixOf (c :: t) || listIncludes needle t

/-- The committed-text append
`prev + (prev && !prev.endsWith(' ') ? ' ' : '') + text`. -/
def appendCommitted (prev t : List Char) : List Char :=
  let sep : List Char := if prev ≠ [] ∧ prev.getLast? ≠ some ' ' then [' '] else []
  prev ++ sep ++ t

/-- Embedding of `ws.onmessage` of `startRecording` (`part_006:72-91`): parse the
frame, then branch on `message_type`.  A non-string `message_type` either
fails the strict equalities and yields falsy optional chaining
(`null`/`undefined`) or throws inside the handler's `try` (`.includes` on
a number) — in every such case the state is unchanged. -/
def onMessage (st : SttState) (raw : List Char) : SttState :=
  match parseJs raw with
  | none => st
  | some p =>
    match p.get kMessageType with
    | .str s =>
      if s = "partial_transcript".data ∧ (p.get kText).truthy then
        { st with sttPartial := jsToString (p.get kText) }
      else if s = "committed_transcript".data ∧ (p.get kText).truthy then
        { st with answer := appendCommitted st.answer (jsToString (p.get kText)),
                  sttPartial := [] }
      else if listIncludes "error".data s || s = "server_error".data then
        { st with analysisError :=
            jsToString (jsOr (p.get kDetail) (jsOr (p.get kErrorField) (.str "STT error".data))) }
      else st
    | _ => st

/-- Embedding of `stopRecording` (`part_006:111-130`): tears down audio nodes and the
socket, clears `isRecording` and the partial display; the answer buffer
is not touched. -/
def stopRecording (st : SttState) : SttState :=
  { st with isRecording := false, sttPartial := [] }

/- PCM conversion -/

/-- Embedding of `Math.max(-1, Math.min(1, x))`. -/
def pcmClamp (x : ℚ) : ℚ := max (-1) (min 1 x)

/-- Truncation toward zero performed when a number is stored into an
`Int16Array` slot or via `DataView.setInt16`. -/
def jsTrunc (q : ℚ) : ℤ := if q < 0 then ⌈q⌉ else ⌊q⌋

/-- Wrap an integer into the Int16 range, as Int16 storage does. -/
def toInt16 (n : ℤ) : ℤ := (n + 32768) % 65536 - 32768

/-- One sample of the Float32→Int16 conversion
(`part_006:61-64` and `floatTo16BitPCM` in `frontend/test/app.js:407-415`):
clamp to `[-1,1]`, scale negatives by `0x8000` and non-negatives by
`0x7fff`, then store as Int16. -/
def pcmSample (x : ℚ) : ℤ :=
  let s := pcmClamp x
  toInt16 (jsTrunc (if s < 0 then s * 32768 else s * 32767))

/-- A scoring/evaluation round trip that contributes nothing: the
provider call threw, the response had no usable text, or the text failed
`JSON.parse` (this includes empty text, which parses as nothing). -/
def oracleFailed (o : Option (Option (List Char))) : Bool :=
  match o with
  | none => true
  | some none => true
  | some (some t) => (parseJs (stripFences (trimWs t))).isNone

/-- The `overallScore` value the Step B evaluation response carries
(`undefined` when the call failed or did not parse). -/
def evalScore (eo : Option (Option (List Char))) : JSVal :=
  match eo with
  | some (some t) =>
    match parseJs (stripFences (trimWs t)) with
    | some parsed => parsed.get kOverallScore
    | none => .undefined
  | _ => .undefined

/-- Whether Step B's response provides a numeric `overallScore`. -/
def evalNumeric (eo : Option (Option (List Char))) : Bool :=
  (evalScore eo).isNumber

/-- A transcript event that appends to the answer field: a parsed
`committed_transcript` frame with truthy `text`. -/
def isCommittedEvent (raw : List Char) : Bool :=
  match parseJs raw with
  | none => false
  | some p =>
    (match p.get kMessageType with
     | .str s => decide (s = "committed_transcript".data)
     | _ => false) && (p.get kText).truthy

/- ------------------------------------------------------------------ -/
/- Helper lemmas on objects, serialization and the two scoring steps.  -/
/- ------------------------------------------------------------------ -/

theorem getField_setField_self (fs : List (List Char × JSVal)) (k : List Char) (v : JSVal) :
    getField (setField fs k v) k = v := by
  induction fs with
  | nil => simp [setField, getField]
  | cons p fs ih =>
      obtain ⟨k', v'⟩ := p
      by_cases h : k' = k
      · simp [setField, h, getField]
      · simp [setField, h, getField, ih]

theorem getField_setField_ne (fs : List (List Char × JSVal)) (k k' : List Char) (v : JSVal)
    (h : k ≠ k') : getField (setField fs k v) k' = getField fs k' := by
  induction fs with
  | nil => simp [setField, getField, h]
  | cons p fs ih =>
      obtain ⟨k1, v1⟩ := p
      by_cases h1 : k1 = k
      · simp [setField, h1, getField, h]
      · simp [setField, h1, getField, ih]

theorem get_set_ne (o : JSVal) (k k' : List Char) (v : JSVal) (h : k ≠ k') :
    (o.set k v).get k' = o.get k' := by
  cases o <;> simp [JSVal.set, JSVal.get]
  exact getField_setField_ne _ _ _ _ h

theorem get_set_self_obj (fs : List (List Char × JSVal)) (k : List Char) (v : JSVal) :
    ((JSVal.obj fs).set k v).get k = v := by
  simp [JSVal.set, JSVal.get, getField_setField_self]

/-- Setting an absent key appends it. -/
theorem setField_absent (fs : List (List Char × JSVal)) (k : List Char) (v : JSVal)
    (h : ∀ p ∈ fs, p.1 ≠ k) : setField fs k v = fs ++ [(k, v)] := by
  induction fs with
  | nil => simp [setField]
  | cons p fs ih =>
      obtain ⟨k1, v1⟩ := p
      have h1 : k1 ≠ k := h (k1, v1) (by simp)
      simp [setField, h1, ih fun q hq => h q (by simp [hq])]

theorem getField_absent (fs : List (List Char × JSVal)) (k : List Char)
    (h : ∀ p ∈ fs, p.1 ≠ k) : getField fs k = .undefined := by
  induction fs with
  | nil => rfl
  | cons p fs ih =>
      obtain ⟨k1, v1⟩ := p
      have h1 : k1 ≠ k := h (k1, v1) (by simp)
      simp [getField, h1, ih fun q hq => h q (by simp [hq])]

/-- Setting with another key preserves the all-values-undefined-at-`k`
property. -/
theorem setField_preserves_undefAt (fs : List (List Char × JSVal)) (k k' : List Char)
    (v : JSVal) (hk : k' ≠ k) (h : ∀ p ∈ fs, p.1 = k → p.2 = .undefined) :
    ∀ p ∈ setField fs k' v, p.1 = k → p.2 = .undefined := by
  induction fs with
  | nil =>
      intro p hp
      simp [setField] at hp
      subst hp
      intro hkk
      exact absurd hkk hk
  | cons q fs ih =>
      obtain ⟨k1, v1⟩ := q
      by_cases h1 : k1 = k'
      · intro p hp
        simp [setField, h1] at hp
        rcases hp with hp | hp
        · subst hp; intro hkk; exact absurd hkk hk
        · exact h p (by simp [hp])
      · intro p hp
        simp [setField, h1] at hp
        rcases hp with hp | hp
        · subst hp; exact h (k1, v1) (by simp)
        · exact ih (fun q hq => h q (by simp [hq])) p hp

/-- Reading a serialized object at a key whose stored value is defined. -/
theorem serializeTop_get_def (fs : List (List Char × JSVal)) (k : List Char)
    (h : (getField fs k).isUndefined = false) :
    (serializeTop (.obj fs)).get k = jsonFix (getField fs k) := by
  induction fs with
  | nil => simp [getField, JSVal.isUndefined] at h
  | cons p fs ih =>
      obtain ⟨k1, v1⟩ := p
      by_cases h1 : k1 = k
      · subst h1
        simp [getField] at h
        cases v1 <;> simp_all [serializeTop, JSVal.isUndefined, JSVal.get, getField, List.filter]
      · by_cases h2 : v1.isUndefined = true
        · simp [getField, h1] at h
          have := ih h
          simpa [serializeTop, List.filter, h2, JSVal.get, getField, h1] using this
        · simp [getField, h1] at h
          have := ih h
          simp [serializeTop, List.filter, h2, JSVal.get, getField, h1] at this ⊢
          exact this

/-- Reading a serialized object at a key every one of whose occurrences
holds `undefined` (in particular at an absent key) yields `undefined`. -/
theorem serializeTop_get_undefAt (fs : List (List Char × JSVal)) (k : List Char)
    (h : ∀ p ∈ fs, p.1 = k → p.2 = .undefined) :
    (serializeTop (.obj fs)).get k = .undefined := by
  induction fs with
  | nil => simp [serializeTop, JSVal.get, getField]
  | cons p fs ih =>
      obtain ⟨k1, v1⟩ := p
      have ih' := ih fun q hq => h q (by simp [hq])
      by_cases h1 : k1 = k
      · have hv : v1 = .undefined := h (k1, v1) (by simp) h1
        subst hv
        simpa [serializeTop, List.filter, JSVal.isUndefined, JSVal.get] using ih'
      · by_cases h2 : v1.isUndefined = true
        · simpa [serializeTop, List.filter, h2, JSVal.get] using ih'
        · simp [serializeTop, List.filter, h2, JSVal.get, getField, h1] at ih' ⊢
          exact ih'

theorem stepA_of_failed (msgs : List JSVal) (fit : JSVal)
    (so : Option (Option (List Char))) (out : JSVal)
    (h : oracleFailed so = true) : stepA msgs fit so out = out := by
  rcases so with _ | t
  · simp [stepA]
  · rcases t with _ | t
    · simp [stepA]
    · simp only [oracleFailed, Option.isNone_iff_eq_none] at h
      simp [stepA, h]

theorem stepB_of_failed (eo : Option (Option (List Char))) (out : JSVal)
    (h : oracleFailed eo = true) : stepB eo out = out := by
  rcases eo with _ | t
  · rfl
  · rcases t with _ | t
    · rfl
    · simp only [oracleFailed, Option.isNone_iff_eq_none] at h
      simp [stepB, h]

theorem stepA_of_noUsers (msgs : List JSVal) (fit : JSVal)
    (so : Option (Option (List Char))) (out : JSVal)
    (h : userCount msgs = 0) : stepA msgs fit so out = out := by
  simp [stepA, h]

theorem stepA_get_ne (msgs : List JSVal) (fit : JSVal)
    (so : Option (Option (List Char))) (out : JSVal) (k : List Char)
    (h1 : kPerQuestionScores ≠ k) (h2 : kOverallScore ≠ k) :
    (stepA msgs fit so out).get k = out.get k := by
  have hset1 : ∀ w, (out.set kPerQuestionScores w).get k = out.get k :=
    fun w => get_set_ne _ _ _ _ h1
  have hset2 : ∀ w z, ((out.set kPerQuestionScores w).set kOverallScore z).get k = out.get k :=
    fun w z => (get_set_ne _ _ _ _ h2).trans (hset1 w)
  unfold stepA
  repeat' split
  all_goals first
    | rfl
    | exact hset1 _
    | exact hset2 _ _
    | (simp only []
       repeat' split
       all_goals first
         | exact hset1 _
         | exact hset2 _ _)

theorem stepB_get_ne (eo : Option (Option (List Char))) (out : JSVal) (k : List Char)
    (h1 : kOverallScore ≠ k) (h2 : kOverallFeedback ≠ k) (h3 : kClosingMessage ≠ k) :
    (stepB eo out).get k = out.get k := by
  unfold stepB
  repeat' split
  all_goals first
    | rfl
    | rw [get_set_ne _ _ _ _ h3, get_set_ne _ _ _ _ h2, get_set_ne _ _ _ _ h1]

theorem stepB_get_score_of_notNumeric (eo : Option (Option (List Char))) (out : JSVal)
    (h : evalNumeric eo = false) :
    (stepB eo out).get kOverallScore = out.get kOverallScore := by
  rcases eo with _ | t
  · rfl
  · rcases t with _ | t
    · rfl
    · cases hp : parseJs (stripFences (trimWs t)) with
      | none => simp [stepB, hp]
      | some parsed =>
          simp only [evalNumeric, evalScore, hp] at h
          simp only [stepB, hp]
          rw [get_set_ne _ _ _ _ (show kClosingMessage ≠ kOverallScore by decide),
            get_set_ne _ _ _ _ (show kOverallFeedback ≠ kOverallScore by decide)]
          simp only [h, Bool.false_eq_true, if_false]
          cases out with
          | obj fs => exact get_set_self_obj fs _ _
          | undefined => rfl
          | null => rfl
          | nan => rfl
          | bool b => rfl
          | num q => rfl
          | str s => rfl
          | arr xs => rfl

/-- A value with a truthy property is an object. -/
theorem obj_of_get_truthy (o : JSVal) (k : List Char)
    (h : (o.get k).truthy = true) : ∃ fs, o = .obj fs := by
  cases o <;> simp [JSVal.get, JSVal.truthy] at h <;> exact ⟨_, rfl⟩

/-- Step B sends objects to objects. -/
theorem stepB_obj (eo : Option (Option (List Char))) (fs : List (List Char × JSVal)) :
    ∃ gs, stepB eo (.obj fs) = .obj gs := by
  rcases eo with _ | t
  · exact ⟨fs, rfl⟩
  · rcases t with _ | t
    · exact ⟨fs, rfl⟩
    · cases hp : parseJs (stripFences (trimWs t)) with
      | none => exact ⟨fs, by simp [stepB, hp]⟩
      | some parsed =>
          simp only [stepB, hp]
          exact ⟨_, rfl⟩

theorem toInt16_id (n : ℤ) (h1 : -32768 ≤ n) (h2 : n ≤ 32767) : toInt16 n = n := by
  unfold toInt16
  omega

/- ------------------------------------------------------------------ -/
/- Claim theorems.                                                     -/
/- ------------------------------------------------------------------ -/

/-- C10: the client PCM conversion clamps each sample to `[-1, 1]`, scales
negatives by `0x8000` and non-negatives by `0x7fff`, and every emitted
Int16 sample lies in `[-32768, 32767]` — the Int16 store never wraps. -/
theorem C10_pcm_no_overflow (x : ℚ) :
    -32768 ≤ pcmSample x ∧ pcmSample x ≤ 32767 ∧
    pcmSample x = jsTrunc (if pcmClamp x < 0 then pcmClamp x * 32768 else pcmClamp x * 32767) := by
  have hs1 : -1 ≤ pcmClamp x := le_max_left _ _
  have hs2 : pcmClamp x ≤ 1 := max_le (by norm_num) (min_le_left _ _)
  have key : -32768 ≤ jsTrunc (if pcmClamp x < 0 then pcmClamp x * 32768 else pcmClamp x * 32767) ∧
      jsTrunc (if pcmClamp x < 0 then pcmClamp x * 32768 else pcmClamp x * 32767) ≤ 32767 := by
    by_cases hneg : pcmClamp x < 0
    · simp only [hneg, if_true]
      have hv1 : (-32768 : ℚ) ≤ pcmClamp x * 32768 := by
        have := mul_le_mul_of_nonneg_right hs1 (by norm_num : (0:ℚ) ≤ 32768)
        linarith
      have hv2 : pcmClamp x * 32768 ≤ 0 := by
        have := mul_le_mul_of_nonneg_right (le_of_lt hneg) (by norm_num : (0:ℚ) ≤ 32768)
        linarith
      unfold jsTrunc
      constructor
      · split
        · have h3 : (-32768 : ℚ) ≤ (⌈pcmClamp x * 32768⌉ : ℚ) := le_trans hv1 (Int.le_ceil _)
          exact_mod_cast h3
        · have h3 : (-32768 : ℚ) ≤ (⌊pcmClamp x * 32768⌋ : ℚ) := by
            have h4 : ¬ pcmClamp x * 32768 < 0 := by assumption
            have h5 : (0:ℚ) ≤ pcmClamp x * 32768 := not_lt.mp h4
            have := Int.floor_nonneg.mpr h5
            have h6 : (0:ℚ) ≤ (⌊pcmClamp x * 32768⌋ : ℚ) := by exact_mod_cast this
            linarith
          exact_mod_cast h3
      · split
        · have h3 : ⌈pcmClamp x * 32768⌉ ≤ 0 := Int.ceil_le.mpr (by exact_mod_cast hv2)
          omega
        · have h3 : (⌊pcmClamp x * 32768⌋ : ℚ) ≤ 0 := le_trans (Int.floor_le _) hv2
          have h4 : ⌊pcmClamp x * 32768⌋ ≤ 0 := by exact_mod_cast h3
          omega
    · simp only [hneg, if_false]
      have h0 : (0:ℚ) ≤ pcmClamp x := not_lt.mp hneg
      have hv1 : (0 : ℚ) ≤ pcmClamp x * 32767 := mul_nonneg h0 (by norm_num)
      have hv2 : pcmClamp x * 32767 ≤ 32767 := by
        have := mul_le_mul_of_nonneg_right hs2 (by norm_num : (0:ℚ) ≤ 32767)
        linarith
      have hnv : ¬ pcmClamp x * 32767 < 0 := not_lt.mpr hv1
      unfold jsTrunc
      rw [if_neg hnv]
      constructor
      · have h3 : (0:ℤ) ≤ ⌊pcmClamp x * 32767⌋ := Int.floor_nonneg.mpr hv1
        omega
      · have h3 : (⌊pcmClamp x * 32767⌋ : ℚ) ≤ 32767 := le_trans (Int.floor_le _) hv2
        exact_mod_cast h3
  have heq : pcmSample x =
      jsTrunc (if pcmClamp x < 0 then pcmClamp x * 32768 else pcmClamp x * 32767) := by
    unfold pcmSample
    exact toInt16_id _ key.1 key.2
  exact ⟨heq ▸ key.1, heq ▸ key.2, heq⟩

theorem onMessage_answer_of_not_committed (st : SttState) (raw : List Char)
    (h : isCommittedEvent raw = false) : (onMessage st raw).answer = st.answer := by
  unfold onMessage
  cases hp : parseJs raw with
  | none => rfl
  | some p =>
      cases hm : p.get kMessageType with
      | str s =>
        simp only [hm]
        simp only [isCommittedEvent, hp, hm, Bool.and_eq_false_iff] at h
        by_cases h1 : s = "partial_transcript".data ∧ (p.get kText).truthy = true
        · simp [h1]
        · by_cases h2 : s = "committed_transcript".data ∧ (p.get kText).truthy = true
          · rcases h with h | h
            · simp [h2.1] at h
            · simp [h2.2] at h
          · by_cases h3 : listIncludes "error".data s = true ∨ s = "server_error".data
            · simp [h1, h2, h3]
            · simp [h1, h2, h3]
      | undefined => simp [hm]
      | null => simp [hm]
      | nan => simp [hm]
      | bool b => simp [hm]
      | num q => simp [hm]
      | arr xs => simp [hm]
      | obj fs => simp [hm]

/-- C9: on the STT channel only `committed_transcript` events touch the
answer buffer.  First part: any event that is not a committed transcript
(including every `partial_transcript` and error frame, and unparseable
data) leaves `answer` unchanged.  Second part: a committed transcript with
text `t` appends exactly `t`, space-separated when needed, and clears the
partial display.  Third part: a whole recording gesture — any event
sequence with no committed transcript, closed by `stopRecording` — leaves
the answer field unmodified. -/
theorem C9_committed_only :
    (∀ (st : SttState) (raw : List Char),
      isCommittedEvent raw = false → (onMessage st raw).answer = st.answer) ∧
    (∀ (st : SttState) (p : JSVal) (raw t : List Char), parseJs raw = some p →
      p.get kMessageType = .str "committed_transcript".data →
      p.get kText = .str t → t ≠ [] →
      (onMessage st raw).answer = appendCommitted st.answer t ∧
      (onMessage st raw).sttPartial = []) ∧
    (∀ (st : SttState) (events : List (List Char)),
      (∀ e ∈ events, isCommittedEvent e = false) →
      (stopRecording (events.foldl onMessage st)).answer = st.answer) := by
  refine ⟨onMessage_answer_of_not_committed, ?_, ?_⟩
  · intro st p raw t hp hm ht hne
    unfold onMessage
    simp only [hp, hm]
    simp +decide [ht, JSVal.truthy, hne, jsToString]
  · intro st events h
    have main : (events.foldl onMessage st).answer = st.answer := by
      induction events generalizing st with
      | nil => rfl
      | cons e es ih =>
          have he := h e (by simp)
          have ih' := ih (onMessage st e) (fun e' he' => h e' (by simp [he']))
          simpa [List.foldl, onMessage_answer_of_not_committed st e he] using ih'
    simpa [stopRecording] using main

/-- A concrete client state about to send its first answer. -/
def c2State : ClientState :=
  { messages := [⟨"assistant".data, .str "q".data⟩]
    answer := "hi".data
    sending := false
    interviewDone := false
    analysisError := []
    hasSession := true
    overallScore := none
    overallFeedback := []
    sessionSummary := [] }

/-- C2 fails on the code: `handleSendAnswer` appends the user message to
the transcript before the request and does not roll it back when the
request fails, so the transcript of a failed round is changed. -/
theorem C2_counterexample :
    (handleSendAnswer c2State (.httpError "Request failed".data)).messages ≠
      c2State.messages := by
  intro h
  have h2 : (handleSendAnswer c2State (.httpError "Request failed".data)).messages =
      c2State.messages ++ [⟨"user".data, .str "hi".data⟩] := by rfl
  rw [h2] at h
  have := congrArg List.length h
  simp [c2State] at this

/-- C2 amended: on a failed round the transcript gains exactly the
optimistically appended user message — no assistant turn is added, the
error is surfaced, and the round ends with `sending` cleared. -/
theorem C2_amended (st : ClientState) (m : List Char) (resp : FetchResult)
    (hguard : ¬(trimWs st.answer = [] ∨ ¬st.hasSession ∨ st.sending ∨ st.interviewDone))
    (hfail : resp = .netError m ∨ resp = .httpError m) :
    (handleSendAnswer st resp).messages =
      st.messages ++ [⟨"user".data, .str (trimWs st.answer)⟩] ∧
    (handleSendAnswer st resp).analysisError = m ∧
    (handleSendAnswer st resp).sending = false ∧
    (handleSendAnswer st resp).interviewDone = st.interviewDone := by
  push_neg at hguard
  rcases hfail with hfail | hfail <;> subst hfail <;>
    simp [handleSendAnswer, hguard.1, hguard.2.1, hguard.2.2.1, hguard.2.2.2]

/-- C2 witness: a concrete failed round. -/
theorem C2_amended_witness :
    (handleSendAnswer c2State (.httpError "boom".data)).messages =
      c2State.messages ++ [⟨"user".data, .str (trimWs c2State.answer)⟩] ∧
    (handleSendAnswer c2State (.httpError "boom".data)).analysisError = "boom".data ∧
    (handleSendAnswer c2State (.httpError "boom".data)).sending = false ∧
    (handleSendAnswer c2State (.httpError "boom".data)).interviewDone = c2State.interviewDone :=
  C2_amended c2State "boom".data (.httpError "boom".data) (by decide) (Or.inr rfl)

theorem dropWhile_dropWhile (p : Char → Bool) (l : List Char) :
    (l.dropWhile p).dropWhile p = l.dropWhile p := by
  induction l with
  | nil => rfl
  | cons a l ih =>
      by_cases h : p a
      · simp [List.dropWhile, h, ih]
      · simp [List.dropWhile, h]

theorem length_dropWhile_le (p : Char → Bool) (l : List Char) :
    (l.dropWhile p).length ≤ l.length := by
  induction l with
  | nil => simp
  | cons a l ih =>
      by_cases h : p a
      · simp only [List.dropWhile, h]
        exact le_trans ih (by simp)
      · simp [List.dropWhile, h]

theorem hasTriple_dropWhile_false (p : Char → Bool) (s : List Char)
    (h : hasTriple s = false) : hasTriple (s.dropWhile p) = false := by
  cases hx : hasTriple (s.dropWhile p) with
  | false => rfl
  | true => exact absurd (hasTriple_dropWhile p s hx) (by simp [h])

theorem hasTriple_trimWs (s : List Char) (h : hasTriple s = false) :
    hasTriple (trimWs s) = false := by
  unfold trimWs
  exact hasTriple_reverse _ (hasTriple_dropWhile_false _ _ (hasTriple_reverse _
    (hasTriple_dropWhile_false _ _ h)))

/-- The result of a trim has no leading whitespace left. -/
theorem dropWhile_trimWs (s : List Char) :
    (trimWs s).dropWhile isJsWs = trimWs s := by
  unfold trimWs
  have ha : (s.dropWhile isJsWs).dropWhile isJsWs = s.dropWhile isJsWs :=
    dropWhile_dropWhile _ _
  obtain ⟨u, hu⟩ := dropWhile_eq_append isJsWs (s.dropWhile isJsWs).reverse
  set d := ((s.dropWhile isJsWs).reverse).dropWhile isJsWs with hd
  cases hrd : d.reverse with
  | nil => simp [hrd]
  | cons c t =>
      have hsplit : s.dropWhile isJsWs = c :: (t ++ u.reverse) := by
        have h2 := congrArg List.reverse hu
        rw [List.reverse_reverse, List.reverse_append] at h2
        rw [h2, hrd]
        simp
      have hc : isJsWs c = false := by
        by_contra hc
        have hc' : isJsWs c = true := by
          cases hx : isJsWs c with
          | false => exact absurd hx hc
          | true => rfl
        have h3 := ha
        rw [hsplit] at h3
        have h4 : (c :: (t ++ u.reverse)).dropWhile isJsWs =
            (t ++ u.reverse).dropWhile isJsWs := by
          simp [List.dropWhile, hc']
        rw [h4] at h3
        have h5 := congrArg List.length h3
        have h6 := length_dropWhile_le isJsWs (t ++ u.reverse)
        simp only [List.length_cons] at h5
        omega
      simp [List.dropWhile, hc]

/-- Trimming is idempotent. -/
theorem trimWs_trimWs (s : List Char) : trimWs (trimWs s) = trimWs s := by
  have hA : (trimWs s).dropWhile isJsWs = trimWs s := dropWhile_trimWs s
  have hB : ((trimWs s).reverse).dropWhile isJsWs = (trimWs s).reverse := by
    have h1 : (trimWs s).reverse = ((s.dropWhile isJsWs).reverse).dropWhile isJsWs := by
      unfold trimWs
      rw [List.reverse_reverse]
    rw [h1, dropWhile_dropWhile]
  show ((((trimWs s).dropWhile isJsWs).reverse).dropWhile isJsWs).reverse = trimWs s
  rw [hA, hB, List.reverse_reverse]

/-- C5: on fence-free text the gateway's JSON-fence-stripping step only
trims surrounding whitespace and is idempotent on its own output; and on
the exact input from Scenario 3 the gateway parses the inner object. -/
theorem C5_strip_trim_only :
    (∀ s : List Char, hasTriple s = false →
      jsonFenceStrip s = trimWs s ∧ jsonFenceStrip (jsonFenceStrip s) = jsonFenceStrip s) ∧
    analyzeGateway (some (some ("```json\n\x7b\"a\":1\x7d\n```").data)) =
      .ok (.obj [("a".data, .num 1)]) := by
  constructor
  · intro s h
    have h1 : stripLeadingJsonFence s = s := stripLeadingJsonFence_of_noFence s h
    have h2 : stripTrailingFence s = s := stripTrailingFence_of_noFence s h
    have e1 : jsonFenceStrip s = trimWs s := by
      simp [jsonFenceStrip, stripFences, h1, h2]
    refine ⟨e1, ?_⟩
    rw [e1]
    have h3 : hasTriple (trimWs s) = false := hasTriple_trimWs s h
    have h4 := stripLeadingJsonFence_of_noFence _ h3
    have h5 := stripTrailingFence_of_noFence _ h3
    simp [jsonFenceStrip, stripFences, h4, h5, trimWs_trimWs, e1]
  · rfl

/-- C5 witness: a concrete fence-free string is only trimmed, idempotently. -/
theorem C5_strip_trim_only_witness :
    jsonFenceStrip " hello ".data = trimWs " hello ".data ∧
    jsonFenceStrip (jsonFenceStrip " hello ".data) = jsonFenceStrip " hello ".data :=
  C5_strip_trim_only.1 " hello ".data (by decide)

/-- C4: the fence-strip regex `/^```json?\s*/i` only matches when the
letters `jso` follow the backticks, so a bare leading ``` fence is NOT
removed (first conjunct), making the gateway fail on a validly fenced
response (second conjunct), while a ```json fence is removed as the spec
says (third conjunct). -/
theorem C4_bare_fence_not_stripped :
    jsonFenceStrip ("```\n\x7b\"a\":1\x7d\n```").data = ("```\n\x7b\"a\":1\x7d").data ∧
    analyzeGateway (some (some ("```\n\x7b\"a\":1\x7d\n```").data)) = .error .invalidJson ∧
    jsonFenceStrip ("```json\n\x7b\"a\":1\x7d\n```").data = ("\x7b\"a\":1\x7d").data :=
  ⟨rfl, rfl, rfl⟩

/-- C8 fails on the code: in `getNextQuestion` a whitespace-only provider
text passes the `!response.text()` check, trims to the empty string, and
dies inside `JSON.parse` — a parse failure, not the explicit empty-text
error the claim requires. -/
theorem C8_counterexample :
    nextGateway (some "  ".data) = .error .invalidJson ∧
    GatewayError.invalidJson ≠ GatewayError.emptyText :=
  ⟨rfl, by decide⟩

/-- C8 amended: `analyzeWithGemini` does raise the explicit empty-text
error on every empty-or-blank text before parsing; `getNextQuestion`
raises its explicit no-response error only on exactly empty text (blank
but nonempty text instead reaches `JSON.parse`). -/
theorem C8_amended :
    (∀ t : List Char, trimWs t = [] → analyzeGateway (some (some t)) = .error .emptyText) ∧
    analyzeGateway none = .error .noResponse ∧
    nextGateway (some []) = .error .noResponse ∧
    nextGateway none = .error .noResponse := by
  refine ⟨?_, rfl, rfl, rfl⟩
  intro t h
  simp [analyzeGateway, h]

/-- C8 witness: a blank text hits the empty-text error in the analyze
gateway. -/
theorem C8_amended_witness :
    analyzeGateway (some (some " \t ".data)) = .error .emptyText :=
  C8_amended.1 " \t ".data (by decide)

/-- Neither enrichment step writes to a key outside
`perQuestionScores`, `overallScore`, `overallFeedback`, `closingMessage`. -/
theorem mergedOut_get_ne (msgs : List JSVal) (fit : JSVal)
    (so eo : Option (Option (List Char))) (out : JSVal) (k : List Char)
    (h1 : kPerQuestionScores ≠ k) (h2 : kOverallScore ≠ k)
    (h3 : kOverallFeedback ≠ k) (h4 : kClosingMessage ≠ k) :
    (mergedOut msgs fit so eo out).get k = out.get k := by
  unfold mergedOut
  simp only []
  split
  · split
    · rw [stepB_get_ne eo _ k h2 h3 h4]
      exact stepA_get_ne msgs fit so out k h1 h2
    · exact stepA_get_ne msgs fit so out k h1 h2
  · split
    · rw [stepB_get_ne eo _ k h2 h3 h4]
    · rfl

/- Concrete material shared by the handler claims. -/

def cAssistantMsg : JSVal :=
  .obj [(kRole, .str "assistant".data), ("content".data, .str "q1".data)]

def cUserMsg : JSVal :=
  .obj [(kRole, .str "user".data), ("content".data, .str "a1".data)]

/-- A model reply that violates the exclusive `nextQuestion`/`done` schema. -/
def cBothText : List Char :=
  "\x7b\"nextQuestion\":\"q\",\"done\":true,\"closingMessage\":\"c\"\x7d".data

/-- The parsed form of `cBothText`. -/
def cBothOut : JSVal :=
  .obj [(kNextQuestion, .str "q".data), (kDone, .bool true), (kClosingMessage, .str "c".data)]

/-- A regular termination reply. -/
def cDoneText : List Char := "\x7b\"done\":true,\"closingMessage\":\"T\"\x7d".data

/-- The parsed form of `cDoneText`. -/
def cDoneOut : JSVal := .obj [(kDone, .bool true), (kClosingMessage, .str "T".data)]

/-- C3 fails on the code: the handler returns the model's parsed JSON
as-is apart from scoring fields, so when the model replies with both
`nextQuestion` and `done` the 200 payload carries both at once. -/
theorem C3_counterexample :
    (interviewNext true (.str "r".data) (.arr [cAssistantMsg]) .undefined
        (some cBothText) none none).isOk = true ∧
    (Resp.payload (interviewNext true (.str "r".data) (.arr [cAssistantMsg]) .undefined
        (some cBothText) none none)).get kNextQuestion = .str "q".data ∧
    (Resp.payload (interviewNext true (.str "r".data) (.arr [cAssistantMsg]) .undefined
        (some cBothText) none none)).get kDone = .bool true :=
  ⟨rfl, rfl, rfl⟩

/-- C3 amended: the handler itself never introduces or removes
`nextQuestion` or `done` — the merged payload carries exactly the values
of the model's parsed output, so the response contains both fields only
when the model's own JSON contained both, and exactly one whenever the
model followed its instructed schema. -/
theorem C3_amended (msgs : List JSVal) (fit : JSVal)
    (so eo : Option (Option (List Char))) (out : JSVal) :
    (mergedOut msgs fit so eo out).get kDone = out.get kDone ∧
    (mergedOut msgs fit so eo out).get kNextQuestion = out.get kNextQuestion :=
  ⟨mergedOut_get_ne msgs fit so eo out kDone
      (by decide) (by decide) (by decide) (by decide),
    mergedOut_get_ne msgs fit so eo out kNextQuestion
      (by decide) (by decide) (by decide) (by decide)⟩

/-- C6: when the model signals termination, every outcome of the optional
scoring and evaluation calls still yields a 200 response, and when both
calls fail (thrown error, unusable response, or unparseable text) the
response is exactly the model's own done/closingMessage payload — the
failures only deprive it of score fields. -/
theorem C6_failures_swallowed (rs fit : JSVal) (msgs : List JSVal)
    (no : Option (List Char)) (out : JSVal)
    (hrs : rs.truthy = true) (hlen : msgs.length ≠ 0)
    (hgw : nextGateway no = .ok out) :
    (∀ so eo, (interviewNext true rs (.arr msgs) fit no so eo).isOk = true) ∧
    (∀ so eo, oracleFailed so = true → oracleFailed eo = true →
      interviewNext true rs (.arr msgs) fit no so eo = .ok (serializeTop out)) := by
  have hbase : ∀ so eo, interviewNext true rs (.arr msgs) fit no so eo =
      .ok (serializeTop (mergedOut msgs fit so eo out)) := by
    intro so eo
    unfold interviewNext
    simp [hrs, hlen, hgw]
  constructor
  · intro so eo
    rw [hbase so eo]
    rfl
  · intro so eo hA hB
    rw [hbase so eo]
    unfold mergedOut
    simp [stepA_of_failed msgs fit so out hA, stepB_of_failed eo out hB]

/-- C6 witness: a concrete terminating round in which both the scoring
and the evaluation calls throw. -/
theorem C6_failures_swallowed_witness :
    (interviewNext true (.str "r".data) (.arr [cAssistantMsg]) .undefined
        (some cDoneText) none none).isOk = true ∧
    interviewNext true (.str "r".data) (.arr [cAssistantMsg]) .undefined
        (some cDoneText) none none = .ok (serializeTop cDoneOut) := by
  have T := C6_failures_swallowed (.str "r".data) .undefined [cAssistantMsg]
    (some cDoneText) cDoneOut (by decide) (by decide) rfl
  exact ⟨T.1 none none, T.2 none none rfl rfl⟩

/-- When the evaluation response parses and carries a numeric
`overallScore`, Step B installs exactly that value. -/
theorem stepB_get_score_of_numeric (t : List Char) (parsed : JSVal)
    (fs : List (List Char × JSVal)) (q : ℚ)
    (hp : parseJs (stripFences (trimWs t)) = some parsed)
    (hq : parsed.get kOverallScore = .num q) :
    (stepB (some (some t)) (.obj fs)).get kOverallScore = .num q := by
  simp only [stepB, hp]
  rw [get_set_ne _ _ _ _ (show kClosingMessage ≠ kOverallScore by decide),
    get_set_ne _ _ _ _ (show kOverallFeedback ≠ kOverallScore by decide),
    get_set_self_obj]
  rw [if_pos (show (parsed.get kOverallScore).isNumber = true by rw [hq]; rfl)]
  exact hq

/-- C7: at termination with zero user-role messages the per-question
scoring step is skipped for every possible scoring-call outcome (so the
`0/0` mean is never formed), and the 200 payload's `overallScore` is the
evaluation step's numeric value when it produced one and is absent
otherwise. -/
theorem C7_zero_user_messages (rs fit : JSVal) (msgs : List JSVal)
    (no : Option (List Char)) (so eo : Option (Option (List Char)))
    (fs : List (List Char × JSVal))
    (hrs : rs.truthy = true) (hlen : msgs.length ≠ 0)
    (hgw : nextGateway no = .ok (.obj fs))
    (hdone : (getField fs kDone).truthy = true)
    (hzero : userCount msgs = 0)
    (hnoOS : ∀ p ∈ fs, p.1 ≠ kOverallScore) :
    (∀ so', stepA msgs fit so' (.obj fs) = .obj fs) ∧
    (∀ q : ℚ, evalScore eo = .num q →
      (Resp.payload (interviewNext true rs (.arr msgs) fit no so eo)).get kOverallScore
        = .num q) ∧
    (evalNumeric eo = false →
      (Resp.payload (interviewNext true rs (.arr msgs) fit no so eo)).get kOverallScore
        = .undefined) := by
  have hskip : ∀ so', stepA msgs fit so' (.obj fs) = .obj fs :=
    fun so' => stepA_of_noUsers msgs fit so' _ hzero
  have hbase : interviewNext true rs (.arr msgs) fit no so eo =
      .ok (serializeTop (mergedOut msgs fit so eo (.obj fs))) := by
    unfold interviewNext
    simp [hrs, hlen, hgw]
  have hdone' : ((JSVal.obj fs).get kDone).truthy = true := hdone
  have hOSu : getField fs kOverallScore = .undefined := getField_absent fs _ hnoOS
  have hc2 : ((JSVal.obj fs).truthy && ((JSVal.obj fs).get kDone).truthy &&
      (!((JSVal.obj fs).get kOverallScore).isNumber ||
        !((JSVal.obj fs).get kOverallFeedback).truthy)) = true := by
    have hg1 : (JSVal.obj fs).get kDone = getField fs kDone := rfl
    have hg2 : (JSVal.obj fs).get kOverallScore = getField fs kOverallScore := rfl
    rw [hg1, hdone, hg2, hOSu]
    rfl
  have hmerged : mergedOut msgs fit so eo (.obj fs) = stepB eo (.obj fs) := by
    unfold mergedOut
    simp only [hskip so, ite_self, hc2, if_true]
  refine ⟨hskip, ?_, ?_⟩
  · intro q hq
    rcases eo with _ | t
    · simp [evalScore] at hq
    · rcases t with _ | t
      · simp [evalScore] at hq
      · cases hp : parseJs (stripFences (trimWs t)) with
        | none => simp [evalScore, hp] at hq
        | some parsed =>
            simp only [evalScore, hp] at hq
            rw [hbase, hmerged]
            have hsc := stepB_get_score_of_numeric t parsed fs q hp hq
            obtain ⟨gs, hgs⟩ := stepB_obj (some (some t)) fs
            rw [hgs] at hsc
            have hsc' : getField gs kOverallScore = JSVal.num q := hsc
            simp only [Resp.payload, hgs]
            rw [serializeTop_get_def gs _ (by rw [hsc']; rfl), hsc']
            rfl
  · intro hnum
    rw [hbase, hmerged]
    rcases eo with _ | t
    · simpa [stepB, Resp.payload] using serializeTop_get_undefAt fs kOverallScore
        (fun p hp hk => absurd hk (hnoOS p hp))
    · rcases t with _ | t
      · simpa [stepB, Resp.payload] using serializeTop_get_undefAt fs kOverallScore
          (fun p hp hk => absurd hk (hnoOS p hp))
      · cases hp : parseJs (stripFences (trimWs t)) with
        | none =>
            simpa [stepB, hp, Resp.payload] using serializeTop_get_undefAt fs kOverallScore
              (fun p hp2 hk => absurd hk (hnoOS p hp2))
        | some parsed =>
            simp only [evalNumeric, evalScore, hp] at hnum
            simp only [stepB, hp, Resp.payload, hnum, Bool.false_eq_true, if_false]
            have hgu : (JSVal.obj fs).get kOverallScore = .undefined := hOSu
            rw [hgu]
            simp only [JSVal.set]
            apply serializeTop_get_undefAt
            apply setField_preserves_undefAt _ _ _ _ (by decide)
            apply setField_preserves_undefAt _ _ _ _ (by decide)
            rw [setField_absent fs _ _ hnoOS]
            intro p hp2 hk
            rcases List.mem_append.mp hp2 with hin | hin
            · exact absurd hk (hnoOS p hin)
            · simp at hin
              simp [hin]

/-- A Step B evaluation reply carrying a numeric overall score. -/
def cEvalText : List Char :=
  "\x7b\"done\":true,\"overallScore\":55,\"overallFeedback\":\"ok\",\"closingMessage\":\"x\"\x7d".data

/-- C7 witness: a concrete terminating round with no user messages where
the evaluation step supplies `overallScore` 55. -/
theorem C7_zero_user_messages_witness :
    (∀ so', stepA [cAssistantMsg] .undefined so' (.obj [(kDone, .bool true),
      (kClosingMessage, .str "T".data)]) = .obj [(kDone, .bool true),
      (kClosingMessage, .str "T".data)]) ∧
    (Resp.payload (interviewNext true (.str "r".data) (.arr [cAssistantMsg]) .undefined
      (some cDoneText) none (some (some cEvalText)))).get kOverallScore = .num 55 := by
  have T := C7_zero_user_messages (.str "r".data) .undefined [cAssistantMsg]
    (some cDoneText) none (some (some cEvalText))
    [(kDone, .bool true), (kClosingMessage, .str "T".data)]
    (by decide) (by decide) rfl rfl rfl (by decide)
  exact ⟨T.1, T.2.1 55 rfl⟩

/-- A partial-transcript frame. -/
def cPartialFrame : List Char :=
  "\x7b\"message_type\":\"partial_transcript\",\"text\":\"hey\"\x7d".data

/-- A server-error frame. -/
def cErrorFrame : List Char :=
  "\x7b\"message_type\":\"server_error\",\"detail\":\"d\"\x7d".data

/-- A committed-transcript frame carrying the text `hi`. -/
def cCommittedFrame : List Char :=
  "\x7b\"message_type\":\"committed_transcript\",\"text\":\"hi\"\x7d".data

/-- A concrete STT state mid-recording. -/
def cSttState : SttState :=
  { answer := "ans".data, sttPartial := [], analysisError := [], isRecording := true }

/-- C9 witness: a concrete gesture of a partial frame and an error frame
leaves the answer unchanged, and a committed frame appends its text. -/
theorem C9_committed_only_witness :
    (onMessage cSttState cPartialFrame).answer = cSttState.answer ∧
    (onMessage cSttState cCommittedFrame).answer =
      appendCommitted cSttState.answer "hi".data ∧
    (stopRecording ([cPartialFrame, cErrorFrame].foldl onMessage cSttState)).answer =
      cSttState.answer := by
  refine ⟨C9_committed_only.1 cSttState cPartialFrame (by decide), ?_, ?_⟩
  · exact (C9_committed_only.2.1 cSttState
      (.obj [(kMessageType, .str "committed_transcript".data), (kText, .str "hi".data)])
      cCommittedFrame "hi".data rfl rfl rfl (by decide)).1
  · exact C9_committed_only.2.2 cSttState [cPartialFrame, cErrorFrame] (by decide)

/-- A scoring reply: one per-question score of 7 and `answersAverage` 7. -/
def cScoreText : List Char :=
  "\x7b\"perQuestionScores\":[\x7b\"index\":1,\"score\":7,\"reason\":\"r\"\x7d],\"answersAverage\":7\x7d".data

/-- An evaluation reply whose `overallScore` is 10. -/
def cEvalLowText : List Char :=
  "\x7b\"done\":true,\"overallScore\":10,\"overallFeedback\":\"bad\",\"closingMessage\":\"x\"\x7d".data

/-- C1 fails on the code: per-question scoring succeeds with average 7
and `clientFitScore` 80, so Step A computes the blend
`round(0.4*80 + 0.6*70) = 74`; but `overallFeedback` is still missing,
so Step B runs and its numeric `overallScore` (here 10) overwrites the
blend in the final payload. -/
theorem C1_counterexample :
    (Resp.payload (interviewNext true (.str "r".data) (.arr [cUserMsg]) (.num 80)
        (some cDoneText) (some (some cScoreText)) (some (some cEvalLowText)))).get
      kOverallScore = .num 10 ∧
    (10 : ℚ) ≠ jround (2/5 * 80 + 3/5 * jround ((7:ℚ) / 10 * 100)) := by
  constructor
  · rfl
  · have h1 : jround ((7:ℚ) / 10 * 100) = 70 := by
      unfold jround
      norm_num
    rw [h1]
    have h2 : jround (2/5 * 80 + 3/5 * (70:ℚ)) = 74 := by
      unfold jround
      norm_num
    rw [h2]
    norm_num

/-- C1 amended: when per-question scoring succeeds with a numeric
`answersAverage` in `[0,10]` and the caller sent a numeric `fitScore` in
`[0,100]`, Step A stores `overallScore = round(0.4*fit + 0.6*answersAvgPct)`
with `answersAvgPct = round(answersAverage/10*100)` an integer in
`[0,100]`; this value reaches the final payload provided the subsequent
Step B evaluation does not itself return a numeric `overallScore`
(Step B runs whenever `overallFeedback` is still missing, and its numeric
score takes precedence). -/
theorem C1_amended (rs : JSVal) (msgs : List JSVal) (no : Option (List Char))
    (eo : Option (Option (List Char))) (fs : List (List Char × JSVal))
    (t : List Char) (parsed : JSVal) (scores : List JSVal) (f a : ℚ)
    (hrs : rs.truthy = true) (hlen : msgs.length ≠ 0)
    (hgw : nextGateway no = .ok (.obj fs))
    (hdone : (getField fs kDone).truthy = true)
    (husers : userCount msgs ≠ 0)
    (hparse : parseJs (stripFences (trimWs t)) = some parsed)
    (hpqs : parsed.get kPerQuestionScores = .arr scores)
    (havg : parsed.get kAnswersAverage = .num a)
    (ha0 : 0 ≤ a) (ha1 : a ≤ 10)
    (hf0 : 0 ≤ f) (hf1 : f ≤ 100)
    (heval : evalNumeric eo = false) :
    (Resp.payload (interviewNext true rs (.arr msgs) (.num f) no (some (some t)) eo)).get
        kOverallScore = .num (jround (2/5 * f + 3/5 * jround (a / 10 * 100))) ∧
    ∃ k : ℤ, jround (a / 10 * 100) = (k : ℚ) ∧ 0 ≤ k ∧ k ≤ 100 := by
  have hbase : interviewNext true rs (.arr msgs) (.num f) no (some (some t)) eo =
      .ok (serializeTop (mergedOut msgs (.num f) (some (some t)) eo (.obj fs))) := by
    unfold interviewNext
    simp [hrs, hlen, hgw]
  have hstep : stepA msgs (.num f) (some (some t)) (.obj fs) =
      ((JSVal.obj fs).set kPerQuestionScores (.arr scores)).set kOverallScore
        (.num (jround (2/5 * f + 3/5 * jround (a / 10 * 100)))) := by
    unfold stepA
    rw [if_neg husers]
    simp only [hparse, hpqs, havg]
    rfl
  set blend : ℚ := jround (2/5 * f + 3/5 * jround (a / 10 * 100)) with hblend
  have houtA : stepA msgs (.num f) (some (some t)) (.obj fs)
      = .obj (setField (setField fs kPerQuestionScores (.arr scores)) kOverallScore
          (.num blend)) := hstep
  set gs1 : List (List Char × JSVal) :=
    setField (setField fs kPerQuestionScores (.arr scores)) kOverallScore (.num blend) with hgs1
  have hgetS : getField gs1 kOverallScore = .num blend := by
    rw [hgs1, getField_setField_self]
  have hgetD : getField gs1 kDone = getField fs kDone := by
    rw [hgs1, getField_setField_ne _ _ _ _ (by decide),
      getField_setField_ne _ _ _ _ (by decide)]
  have hc1 : ((JSVal.obj fs).truthy && ((JSVal.obj fs).get kDone).truthy) = true := by
    have hg : (JSVal.obj fs).get kDone = getField fs kDone := rfl
    rw [hg, hdone]
    rfl
  have hmerged : mergedOut msgs (.num f) (some (some t)) eo (.obj fs) =
      (if ((JSVal.obj gs1).truthy && ((JSVal.obj gs1).get kDone).truthy &&
          (!((JSVal.obj gs1).get kOverallScore).isNumber ||
            !((JSVal.obj gs1).get kOverallFeedback).truthy)) = true
        then stepB eo (.obj gs1) else .obj gs1) := by
    unfold mergedOut
    simp only [hc1, if_true, houtA]
  have hfinal : (mergedOut msgs (.num f) (some (some t)) eo (.obj fs)).get kOverallScore
      = .num blend := by
    rw [hmerged]
    split
    · rw [stepB_get_score_of_notNumeric eo _ heval]
      exact hgetS
    · exact hgetS
  have hobj2 : ∃ gs2, mergedOut msgs (.num f) (some (some t)) eo (.obj fs) = .obj gs2 := by
    rw [hmerged]
    split
    · exact stepB_obj eo gs1
    · exact ⟨gs1, rfl⟩
  obtain ⟨gs2, hgs2⟩ := hobj2
  constructor
  · rw [hbase]
    simp only [Resp.payload, hgs2]
    rw [hgs2] at hfinal
    have hfinal' : getField gs2 kOverallScore = .num blend := hfinal
    rw [serializeTop_get_def gs2 _ (by rw [hfinal']; rfl), hfinal']
    rfl
  · refine ⟨⌊a / 10 * 100 + 1/2⌋, rfl, ?_, ?_⟩
    · have h10 : (0:ℚ) ≤ a / 10 * 100 + 1/2 := by
        have : a / 10 * 100 = 10 * a := by ring
        rw [this]
        linarith
      exact Int.le_floor.mpr (by exact_mod_cast h10)
    · have h10 : a / 10 * 100 + 1/2 < 101 := by
        have : a / 10 * 100 = 10 * a := by ring
        rw [this]
        linarith
      have := Int.floor_lt.mpr (show a / 10 * 100 + 1/2 < ((101:ℤ):ℚ) by exact_mod_cast h10)
      omega

/-- C1 witness: fit 80 and answers average 7 blend to
`round(0.4*80 + 0.6*70)` in the final payload when the evaluation call
fails. -/
theorem C1_amended_witness :
    (Resp.payload (interviewNext true (.str "r".data) (.arr [cUserMsg]) (.num 80)
        (some cDoneText) (some (some cScoreText)) none)).get kOverallScore
      = .num (jround (2/5 * 80 + 3/5 * jround ((7:ℚ) / 10 * 100))) ∧
    ∃ k : ℤ, jround ((7:ℚ) / 10 * 100) = (k : ℚ) ∧ 0 ≤ k ∧ k ≤ 100 :=
  C1_amended (.str "r".data) [cUserMsg] (some cDoneText) none
    [(kDone, .bool true), (kClosingMessage, .str "T".data)] cScoreText
    (.obj [(kPerQuestionScores, .arr [.obj [("index".data, .num 1), (kScore, .num 7),
      ("reason".data, .str "r".data)]]), (kAnswersAverage, .num 7)])
    [.obj [("index".data, .num 1), (kScore, .num 7), ("reason".data, .str "r".data)]]
    80 7 (by decide) (by decide) rfl (by decide) (by decide) rfl rfl rfl
    (by decide) (by decide) (by decide) (by decide) rfl

end ThinkAloud
